import Mathlib

/-!
Verification development for a small brainfuck interpreter (src/main.rs).
The interpreter state, the lexer, the bracket validator and the execution
loop are embedded as executable Lean definitions mirroring the Rust source;
the console input/output streams are made explicit as lists in the state.
-/

set_option maxRecDepth 4000

/-- The size of the array of memory cells used by brainfuck (`DATA_SIZE`). -/
def DATA_SIZE : Nat := 30000

/-- The character constants recognized by the compiler (`INCREMENT_DP` is the
character that increments the position of the data pointer). -/
def INCREMENT_DP : Char := '>'

/-- The character that decrements the position of the data pointer. -/
def DECREMENT_DP : Char := '<'

/-- The character that increments the value of the byte at the data pointer. -/
def INCREMENT_DP_VALUE : Char := '+'

/-- The character that decrements the value of the byte at the data pointer. -/
def DECREMENT_DP_VALUE : Char := '-'

/-- The character that outputs the byte at the data pointer. -/
def OUTPUT_DP : Char := '.'

/-- The character that prompts for a single character of input. -/
def INPUT_DP : Char := ','

/-- The character that jumps forward when the byte at the data pointer is 0. -/
def JUMP_FORWARD : Char := '['

/-- The character that jumps backward when the byte at the data pointer is non-zero. -/
def JUMP_BACK : Char := ']'

/-- The enum `Op`: the operations within brainfuck. -/
inductive Op where
  | IncrementDp
  | DecrementDp
  | IncrementDpValue
  | DecrementDpValue
  | OutputDp
  | InputDp
  | JumpForward
  | JumpBackward
deriving DecidableEq, Repr

/-- The struct `JumpPosition`: start and end positions (within the list of
operations) of a matching bracket pair.  `end` is a Lean keyword, so the
field is called `stop` here. -/
structure JumpPosition where
  start : Nat
  stop : Nat
deriving DecidableEq, Repr

/-- The struct `Interpreter` (instantiated at `N = DATA_SIZE` in the program):
the array of memory cells, the data and instruction pointers, and the op and
jump-position lists filled during compilation.  The two extra fields `input`
and `output` model the console streams the Rust code reads from and prints
to: `input` is the pending raw character codes for `,`, and `output` collects
the lines printed by `.`. -/
structure Interpreter where
  data : List Int
  data_pointer : Nat
  inst_pointer : Nat
  op_list : List Op
  jump_positions : List JumpPosition
  input : List Nat
  output : List Int
deriving Repr

/-- The constructor `Interpreter::new()`: zeroed tape of `DATA_SIZE` cells, both pointers 0,
empty op and jump lists (and, in the stream model, no pending input and no
output yet). -/
def Interpreter.new : Interpreter :=
  { data := List.replicate DATA_SIZE 0
    data_pointer := 0
    inst_pointer := 0
    op_list := []
    jump_positions := []
    input := []
    output := [] }

/-- The value `self.data[self.data_pointer]` (total via `getD`; the data
pointer is kept within bounds by the interpreter, so the default is never
read in reachable states). -/
def Interpreter.cell (s : Interpreter) : Int :=
  s.data.getD s.data_pointer 0

/-- Rust `c as i8` on a character code: truncate to 8 bits and reinterpret
as a signed byte. -/
def to_i8 (n : Nat) : Int :=
  if n % 256 < 128 then (n % 256 : Int) else (n % 256 : Int) - 256

/-- The per-character dispatch of the lexing loop in `compile`: the eight
recognized characters map to their `Op`; any other character is ignored. -/
def char_to_op (c : Char) : Option Op :=
  if c = INCREMENT_DP then some Op.IncrementDp
  else if c = DECREMENT_DP then some Op.DecrementDp
  else if c = INCREMENT_DP_VALUE then some Op.IncrementDpValue
  else if c = DECREMENT_DP_VALUE then some Op.DecrementDpValue
  else if c = OUTPUT_DP then some Op.OutputDp
  else if c = INPUT_DP then some Op.InputDp
  else if c = JUMP_FORWARD then some Op.JumpForward
  else if c = JUMP_BACK then some Op.JumpBackward
  else none

/-- The lexing loop of `compile`: push one `Op` per recognized character of
the source text, in source order, ignoring everything else.  The Rust loop
iterates the UTF-8 bytes of the string, casting each byte to a char; since
the eight recognized symbols are single ASCII bytes and every byte of a
multi-byte character is at least 0x80, that byte loop and this per-character
loop drop exactly the same input. -/
def lex (code : List Char) : List Op :=
  code.filterMap char_to_op

/-- The scanning loop of `validate_jumps`.  `ops` is the remainder of the op
list, `index` the position of its head in the full list, `stack` the pending
jump-forward entries (head = top of the Rust `Vec` stack), and `jps` the
jump positions pushed so far.  Returns the function result (`false` on a
mismatched jump-back, emptiness of the stack at the end otherwise) together
with the final contents of `self.jump_positions`. -/
def validate_jumps_go : List Op → Nat → List (Op × Nat) → List JumpPosition →
    Bool × List JumpPosition
  | [], _, stack, jps => (stack.isEmpty, jps)
  | op :: rest, index, stack, jps =>
    match op with
    | Op.JumpForward =>
        validate_jumps_go rest (index + 1) ((Op.JumpForward, index) :: stack) jps
    | Op.JumpBackward =>
        match stack with
        | [] => (false, jps)
        | top :: stack2 =>
            if top.1 ≠ Op.JumpForward then (false, jps)
            else validate_jumps_go rest (index + 1) stack2
              (jps ++ [{ start := top.2, stop := index }])
    | _ => validate_jumps_go rest (index + 1) stack jps

/-- The function `validate_jumps`: clear `jump_positions`, scan the op list with a stack,
record matched pairs, and report whether all jumps matched. -/
def validate_jumps (s : Interpreter) : Bool × Interpreter :=
  let r := validate_jumps_go s.op_list 0 [] []
  (r.1, { s with jump_positions := r.2 })

/-- The function `increment_dp`: panics (`none`) when the data pointer is at
`DATA_SIZE - 1`, otherwise moves it right. -/
def increment_dp (s : Interpreter) : Option Interpreter :=
  if s.data_pointer = DATA_SIZE - 1 then none
  else some { s with data_pointer := s.data_pointer + 1 }

/-- The function `decrement_dp`: panics (`none`) when the data pointer is 0, otherwise
moves it left. -/
def decrement_dp (s : Interpreter) : Option Interpreter :=
  if s.data_pointer = 0 then none
  else some { s with data_pointer := s.data_pointer - 1 }

/-- The function `increment_dp_value`: add 1 to the current cell, wrapping `i8::MAX` to
`i8::MIN`. -/
def increment_dp_value (s : Interpreter) : Interpreter :=
  { s with data :=
      s.data.set s.data_pointer (if s.cell = 127 then -128 else s.cell + 1) }

/-- The function `decrement_dp_value`: subtract 1 from the current cell, wrapping
`i8::MIN` to `i8::MAX`. -/
def decrement_dp_value (s : Interpreter) : Interpreter :=
  { s with data :=
      s.data.set s.data_pointer (if s.cell = -128 then 127 else s.cell - 1) }

/-- The function `input_dp`: read one raw character from the console; a failed read
panics (`none` when the modelled input stream is exhausted); the character
code is stored into the current cell as an `i8`. -/
def input_dp (s : Interpreter) : Option Interpreter :=
  match s.input with
  | [] => none
  | c :: rest =>
      some { s with data := s.data.set s.data_pointer (to_i8 c), input := rest }

/-- The function `output_dp`: print the current cell value (a signed byte, one line). -/
def output_dp (s : Interpreter) : Interpreter :=
  { s with output := s.output ++ [s.cell] }

/-- The function `jump_forward`: when the current cell is 0, look up the jump position
whose `start` equals the instruction pointer and move just past its end;
`none` models the `return false` taken when no pair is found (the state is
left untouched in that branch).  Otherwise step to the next instruction. -/
def jump_forward (s : Interpreter) : Option Interpreter :=
  if s.cell = 0 then
    match s.jump_positions.find? (fun j => j.start == s.inst_pointer) with
    | some jump => some { s with inst_pointer := jump.stop + 1 }
    | none => none
  else some { s with inst_pointer := s.inst_pointer + 1 }

/-- The function `jump_backward`: when the current cell is non-zero, look up the jump
position whose `end` equals the instruction pointer and move just past its
start; `none` models the `return false` taken when no pair is found.
Otherwise step to the next instruction. -/
def jump_backward (s : Interpreter) : Option Interpreter :=
  if s.cell ≠ 0 then
    match s.jump_positions.find? (fun j => j.stop == s.inst_pointer) with
    | some jump => some { s with inst_pointer := jump.start + 1 }
    | none => none
  else some { s with inst_pointer := s.inst_pointer + 1 }

/-- Outcome of one iteration of the `while` loop body of `run`:
`next` continues the loop, `jumpFail` is an early `return false` from a
jump with no resolvable pair, `panic` is a process abort raised by
`increment_dp`, `decrement_dp` or `input_dp`.  Each carries the state at
that moment. -/
inductive StepResult where
  | next (s : Interpreter)
  | jumpFail (s : Interpreter)
  | panic (s : Interpreter)
deriving Repr

/-- One iteration of the `while` loop body of `run`, dispatching on `op`
(the op at the instruction pointer).  The non-jump arms call their helper
and then advance the instruction pointer by 1; the jump arms delegate the
pointer update to `jump_forward` / `jump_backward`. -/
def exec_op (s : Interpreter) (op : Op) : StepResult :=
  match op with
  | Op.IncrementDp =>
      match increment_dp s with
      | some s2 => StepResult.next { s2 with inst_pointer := s2.inst_pointer + 1 }
      | none => StepResult.panic s
  | Op.DecrementDp =>
      match decrement_dp s with
      | some s2 => StepResult.next { s2 with inst_pointer := s2.inst_pointer + 1 }
      | none => StepResult.panic s
  | Op.IncrementDpValue =>
      StepResult.next { increment_dp_value s with inst_pointer := s.inst_pointer + 1 }
  | Op.DecrementDpValue =>
      StepResult.next { decrement_dp_value s with inst_pointer := s.inst_pointer + 1 }
  | Op.OutputDp =>
      StepResult.next { output_dp s with inst_pointer := s.inst_pointer + 1 }
  | Op.InputDp =>
      match input_dp s with
      | some s2 => StepResult.next { s2 with inst_pointer := s2.inst_pointer + 1 }
      | none => StepResult.panic s
  | Op.JumpForward =>
      match jump_forward s with
      | some s2 => StepResult.next s2
      | none => StepResult.jumpFail s
  | Op.JumpBackward =>
      match jump_backward s with
      | some s2 => StepResult.next s2
      | none => StepResult.jumpFail s

/-- Result of the `run` loop: `success` is normal termination (`run`
returns `true`), `failure` is `run` returning `false` after a jump with no
resolvable pair, `panic` is a process abort, and `fuelOut` marks exhaustion
of the step budget of this embedding (the Rust loop has no such bound). -/
inductive RunResult where
  | success (s : Interpreter)
  | failure (s : Interpreter)
  | panic (s : Interpreter)
  | fuelOut (s : Interpreter)
deriving Repr

/-- The `while self.inst_pointer < self.op_list.len()` loop of `run`,
bounded by `fuel` iterations. -/
def run_loop : Nat → Interpreter → RunResult
  | 0, s => RunResult.fuelOut s
  | fuel + 1, s =>
    match s.op_list.get? s.inst_pointer with
    | none => RunResult.success s
    | some op =>
      match exec_op s op with
      | StepResult.next s2 => run_loop fuel s2
      | StepResult.jumpFail s2 => RunResult.failure s2
      | StepResult.panic s2 => RunResult.panic s2

/-- The function `run`: reset the instruction pointer to 0 and run the compiled list of
instructions. -/
def run (fuel : Nat) (s : Interpreter) : RunResult :=
  run_loop fuel { s with inst_pointer := 0 }

/-- Outcome of one `compile` call.  `validationFailed` carries the state
after the mismatched-jump report (the executor is not invoked); the other
constructors relay the `run` result. -/
inductive CompileOutcome where
  | validationFailed (s : Interpreter)
  | ranSuccess (s : Interpreter)
  | ranFailure (s : Interpreter)
  | panicked (s : Interpreter)
  | outOfFuel (s : Interpreter)
deriving Repr

/-- The lexing phase of `compile`: clear the op list and refill it from the
source text. -/
def compile_lex (s : Interpreter) (code : List Char) : Interpreter :=
  { s with op_list := lex code }

/-- The function `compile`: lex the source text into the op list, validate the jumps,
and on success run the program (the `verbose` flag only prints timing and
is omitted). -/
def compile (fuel : Nat) (s : Interpreter) (code : List Char) : CompileOutcome :=
  let s1 := compile_lex s code
  let v := validate_jumps s1
  if v.1 then
    match run fuel v.2 with
    | RunResult.success s2 => CompileOutcome.ranSuccess s2
    | RunResult.failure s2 => CompileOutcome.ranFailure s2
    | RunResult.panic s2 => CompileOutcome.panicked s2
    | RunResult.fuelOut s2 => CompileOutcome.outOfFuel s2
  else CompileOutcome.validationFailed v.2

/-- The interpreter state carried by a `CompileOutcome`. -/
def CompileOutcome.state : CompileOutcome → Interpreter
  | CompileOutcome.validationFailed s => s
  | CompileOutcome.ranSuccess s => s
  | CompileOutcome.ranFailure s => s
  | CompileOutcome.panicked s => s
  | CompileOutcome.outOfFuel s => s

/-- Whether a `CompileOutcome` is a completed successful run. -/
def CompileOutcome.isSuccess : CompileOutcome → Bool
  | CompileOutcome.ranSuccess _ => true
  | _ => false

/-- The interpreter state carried by a `RunResult`. -/
def RunResult.state : RunResult → Interpreter
  | RunResult.success s => s
  | RunResult.failure s => s
  | RunResult.panic s => s
  | RunResult.fuelOut s => s

/-- Modelled from the spec: a bracket-balance counter.  `balanced_from ops k`
holds when, starting with `k` pending `JumpIfZero` openers, every
`JumpIfNonZero` in `ops` has a pending opener and no opener is left at the
end of the scan. -/
def balanced_from : List Op → Nat → Bool
  | [], k => k = 0
  | Op.JumpForward :: rest, k => balanced_from rest (k + 1)
  | Op.JumpBackward :: rest, k =>
      match k with
      | 0 => false
      | k2 + 1 => balanced_from rest k2
  | _ :: rest, k => balanced_from rest k

/-- Modelled from the spec: an instruction sequence has balanced brackets
when the scan starting from zero pending openers succeeds. -/
def balanced (ops : List Op) : Bool :=
  balanced_from ops 0

/-- When every pending stack entry is a jump-forward, the validator scan
succeeds exactly when the remaining ops are balanced relative to the number
of pending openers. -/
lemma validate_go_ok (ops : List Op) :
    ∀ (index : Nat) (stack : List (Op × Nat)) (jps : List JumpPosition),
    (∀ e ∈ stack, e.1 = Op.JumpForward) →
    (validate_jumps_go ops index stack jps).1 = balanced_from ops stack.length := by
  induction ops with
  | nil =>
    intro index stack jps hst
    cases stack <;> simp [validate_jumps_go, balanced_from]
  | cons op rest ih =>
    intro index stack jps hst
    cases op
    case JumpForward =>
      simp only [validate_jumps_go, balanced_from]
      rw [ih (index + 1) ((Op.JumpForward, index) :: stack) jps ?hstk]
      · simp
      case hstk =>
        intro e he
        rcases List.mem_cons.mp he with h | h
        · rw [h]
        · exact hst e h
    case JumpBackward =>
      cases stack with
      | nil => simp [validate_jumps_go, balanced_from]
      | cons top stack2 =>
        have htop : top.1 = Op.JumpForward := hst top (List.mem_cons_self top stack2)
        simp only [validate_jumps_go]
        rw [if_neg (by simp [htop])]
        rw [ih (index + 1) stack2 _ (fun e he => hst e (List.mem_cons_of_mem top he))]
        simp [balanced_from]
    all_goals
      simp only [validate_jumps_go, balanced_from]
      exact ih (index + 1) stack jps hst
/-- On a successful scan, the validator records one pair per jump-backward
instruction scanned. -/
lemma validate_go_count (ops : List Op) :
    ∀ (index : Nat) (stack : List (Op × Nat)) (jps : List JumpPosition),
    (∀ e ∈ stack, e.1 = Op.JumpForward) →
    (validate_jumps_go ops index stack jps).1 = true →
    (validate_jumps_go ops index stack jps).2.length =
      jps.length + ops.count Op.JumpBackward := by
  induction ops with
  | nil =>
    intro index stack jps hst hok
    simp [validate_jumps_go]
  | cons op rest ih =>
    intro index stack jps hst hok
    cases op
    case JumpForward =>
      simp only [validate_jumps_go] at hok ⊢
      rw [ih (index + 1) ((Op.JumpForward, index) :: stack) jps ?hstk hok]
      · simp [List.count_cons]
      case hstk =>
        intro e he
        rcases List.mem_cons.mp he with h | h
        · rw [h]
        · exact hst e h
    case JumpBackward =>
      cases stack with
      | nil => simp [validate_jumps_go] at hok
      | cons top stack2 =>
        have htop : top.1 = Op.JumpForward := hst top (List.mem_cons_self top stack2)
        have hred : validate_jumps_go (Op.JumpBackward :: rest) index (top :: stack2) jps =
            validate_jumps_go rest (index + 1) stack2
              (jps ++ [{ start := top.2, stop := index }]) := by
          simp only [validate_jumps_go]
          rw [if_neg (by simp [htop])]
        rw [hred] at hok ⊢
        rw [ih (index + 1) stack2 _ (fun e he => hst e (List.mem_cons_of_mem top he)) hok]
        simp [List.count_cons]
        omega
    all_goals
      simp only [validate_jumps_go] at hok ⊢
      rw [ih (index + 1) stack jps hst hok]
      simp [List.count_cons]

/-- A balanced scan closes exactly as many brackets as it opens, plus the
pending ones. -/
lemma balanced_from_count (ops : List Op) :
    ∀ (k : Nat), balanced_from ops k = true →
    ops.count Op.JumpBackward = ops.count Op.JumpForward + k := by
  induction ops with
  | nil =>
    intro k h
    simp [balanced_from] at h
    simp [h]
  | cons op rest ih =>
    intro k h
    cases op
    case JumpForward =>
      simp only [balanced_from] at h
      have := ih (k + 1) h
      simp [List.count_cons]
      omega
    case JumpBackward =>
      cases k with
      | zero => simp [balanced_from] at h
      | succ k2 =>
        simp only [balanced_from] at h
        have := ih k2 h
        simp [List.count_cons]
        omega
    all_goals
      simp only [balanced_from] at h
      have := ih k h
      simp [List.count_cons]
      omega

/-- Every pair the validator records has its start strictly before its end,
as long as every pending opener lies before the current index. -/
lemma validate_go_lt (ops : List Op) :
    ∀ (index : Nat) (stack : List (Op × Nat)) (jps : List JumpPosition),
    (∀ e ∈ stack, e.2 < index) →
    (∀ p ∈ jps, p.start < p.stop) →
    ∀ p ∈ (validate_jumps_go ops index stack jps).2, p.start < p.stop := by
  induction ops with
  | nil =>
    intro index stack jps hst hjps
    simpa [validate_jumps_go] using hjps
  | cons op rest ih =>
    intro index stack jps hst hjps
    cases op
    case JumpForward =>
      simp only [validate_jumps_go]
      refine ih (index + 1) ((Op.JumpForward, index) :: stack) jps ?_ hjps
      intro e he
      rcases List.mem_cons.mp he with h | h
      · rw [h]; omega
      · exact Nat.lt_succ_of_lt (hst e h)
    case JumpBackward =>
      cases stack with
      | nil => simpa [validate_jumps_go] using hjps
      | cons top stack2 =>
        simp only [validate_jumps_go]
        by_cases htop : top.1 ≠ Op.JumpForward
        · rw [if_pos htop]
          simpa using hjps
        · rw [if_neg htop]
          refine ih (index + 1) stack2 _
            (fun e he => Nat.lt_succ_of_lt (hst e (List.mem_cons_of_mem top he))) ?_
          intro p hp
          rcases List.mem_append.mp hp with h | h
          · exact hjps p h
          · have : p = { start := top.2, stop := index } := by simpa using h
            rw [this]
            exact hst top (List.mem_cons_self top stack2)
    all_goals
      simp only [validate_jumps_go]
      exact ih (index + 1) stack jps (fun e he => Nat.lt_succ_of_lt (hst e he)) hjps

/-- A successful `jump_forward` changes at most the instruction pointer. -/
lemma jump_forward_frame (s s2 : Interpreter) (h : jump_forward s = some s2) :
    s2.data = s.data ∧ s2.data_pointer = s.data_pointer ∧
    s2.op_list = s.op_list ∧ s2.jump_positions = s.jump_positions ∧
    s2.input = s.input ∧ s2.output = s.output := by
  unfold jump_forward at h
  split at h
  · split at h
    · rcases Option.some.injEq .. ▸ h with h2
      simp at h2
      rw [← h2]
      simp
    · simp at h
  · rcases Option.some.injEq .. ▸ h with h2
    simp at h2
    rw [← h2]
    simp

/-- A successful `jump_backward` changes at most the instruction pointer. -/
lemma jump_backward_frame (s s2 : Interpreter) (h : jump_backward s = some s2) :
    s2.data = s.data ∧ s2.data_pointer = s.data_pointer ∧
    s2.op_list = s.op_list ∧ s2.jump_positions = s.jump_positions ∧
    s2.input = s.input ∧ s2.output = s.output := by
  unfold jump_backward at h
  split at h
  · split at h
    · rcases Option.some.injEq .. ▸ h with h2
      simp at h2
      rw [← h2]
      simp
    · simp at h
  · rcases Option.some.injEq .. ▸ h with h2
    simp at h2
    rw [← h2]
    simp

/-- Executing one instruction that continues the loop preserves the tape
length and keeps the data pointer strictly within the tape. -/
lemma exec_op_preserves (s : Interpreter) (op : Op) (s2 : Interpreter)
    (h1 : s.data.length = DATA_SIZE) (h2 : s.data_pointer < s.data.length)
    (hstep : exec_op s op = StepResult.next s2) :
    s2.data.length = DATA_SIZE ∧ s2.data_pointer < s2.data.length := by
  have hD : DATA_SIZE = 30000 := rfl
  cases op
  case IncrementDp =>
    by_cases hdp : s.data_pointer = DATA_SIZE - 1
    · simp [exec_op, increment_dp, hdp] at hstep
    · simp [exec_op, increment_dp, hdp] at hstep
      rw [← hstep]
      simp [h1]
      omega
  case DecrementDp =>
    by_cases hdp : s.data_pointer = 0
    · simp [exec_op, decrement_dp, hdp] at hstep
    · simp [exec_op, decrement_dp, hdp] at hstep
      rw [← hstep]
      simp [h1]
      omega
  case IncrementDpValue =>
    simp [exec_op, increment_dp_value] at hstep
    rw [← hstep]
    simp [h1]
    omega
  case DecrementDpValue =>
    simp [exec_op, decrement_dp_value] at hstep
    rw [← hstep]
    simp [h1]
    omega
  case OutputDp =>
    simp [exec_op, output_dp] at hstep
    rw [← hstep]
    simp [h1]
    omega
  case InputDp =>
    cases hin : s.input with
    | nil => simp [exec_op, input_dp, hin] at hstep
    | cons c rest =>
      simp [exec_op, input_dp, hin] at hstep
      rw [← hstep]
      simp [h1]
      omega
  case JumpForward =>
    cases hj : jump_forward s with
    | none => simp [exec_op, hj] at hstep
    | some s3 =>
      simp [exec_op, hj] at hstep
      rcases jump_forward_frame s s3 hj with ⟨hd, hp, _⟩
      rw [← hstep]
      rw [hd, hp]
      exact ⟨h1, h2⟩
  case JumpBackward =>
    cases hj : jump_backward s with
    | none => simp [exec_op, hj] at hstep
    | some s3 =>
      simp [exec_op, hj] at hstep
      rcases jump_backward_frame s s3 hj with ⟨hd, hp, _⟩
      rw [← hstep]
      rw [hd, hp]
      exact ⟨h1, h2⟩

/-- A `jumpFail` step leaves the state exactly as it was. -/
lemma exec_op_jumpFail_eq (s s2 : Interpreter) (op : Op)
    (h : exec_op s op = StepResult.jumpFail s2) : s2 = s := by
  cases op <;> simp only [exec_op] at h <;> (try split at h) <;> simp_all

/-- A `panic` step leaves the state exactly as it was. -/
lemma exec_op_panic_eq (s s2 : Interpreter) (op : Op)
    (h : exec_op s op = StepResult.panic s2) : s2 = s := by
  cases op <;> simp only [exec_op] at h <;> (try split at h) <;> simp_all

/-- The run loop keeps the tape length and the data-pointer bound invariant
in whatever state it stops in. -/
lemma run_loop_preserves (fuel : Nat) :
    ∀ (s : Interpreter), s.data.length = DATA_SIZE → s.data_pointer < s.data.length →
    (run_loop fuel s).state.data.length = DATA_SIZE ∧
    (run_loop fuel s).state.data_pointer < (run_loop fuel s).state.data.length := by
  induction fuel with
  | zero =>
    intro s h1 h2
    simp only [run_loop, RunResult.state]
    exact ⟨h1, h2⟩
  | succ fuel ih =>
    intro s h1 h2
    cases hget : s.op_list.get? s.inst_pointer with
    | none =>
      simp only [run_loop, hget, RunResult.state]
      exact ⟨h1, h2⟩
    | some op =>
      cases hstep : exec_op s op with
      | next s2 =>
        simp only [run_loop, hget, hstep]
        exact ih s2 (exec_op_preserves s op s2 h1 h2 hstep).1
          (exec_op_preserves s op s2 h1 h2 hstep).2
      | jumpFail s2 =>
        simp only [run_loop, hget, hstep, RunResult.state]
        have he := exec_op_jumpFail_eq s s2 op hstep
        rw [he]
        exact ⟨h1, h2⟩
      | panic s2 =>
        simp only [run_loop, hget, hstep, RunResult.state]
        have he := exec_op_panic_eq s s2 op hstep
        rw [he]
        exact ⟨h1, h2⟩

/-- The current cell of a state after writing the current cell. -/
lemma cell_set (l : List Int) (n : Nat) (v : Int) (h : n < l.length) :
    (l.set n v).getD n 0 = v := by
  rw [List.getD_eq_getElem _ _ (by simpa using h)]
  exact List.getElem_set_self _

/-- C6: the Lexer/Filter emits exactly one instruction per occurrence of the
8 recognized symbols, preserving source order, silently drops every other
character and cannot fail: lexing is the per-character filter-map,
restricting the text to its recognized characters changes nothing, deleting
any single unrecognized character changes nothing, and the output length is
the number of recognized characters. -/
theorem C6_lexer_filter (code : List Char) :
    lex code = code.filterMap char_to_op ∧
    lex (code.filter (fun c => (char_to_op c).isSome)) = lex code ∧
    (∀ (l1 l2 : List Char) (c : Char), char_to_op c = none →
      lex (l1 ++ c :: l2) = lex (l1 ++ l2)) ∧
    (lex code).length = (code.filter (fun c => (char_to_op c).isSome)).length := by
  refine ⟨rfl, ?_, ?_, ?_⟩
  · induction code with
    | nil => rfl
    | cons c cs ih =>
      cases hc : char_to_op c with
      | none => simpa [lex, List.filter_cons, List.filterMap_cons, hc] using ih
      | some op => simpa [lex, List.filter_cons, List.filterMap_cons, hc] using ih
  · intro l1 l2 c hc
    simp [lex, List.filterMap_append, List.filterMap_cons, hc]
  · induction code with
    | nil => rfl
    | cons c cs ih =>
      cases hc : char_to_op c with
      | none => simpa [lex, List.filter_cons, List.filterMap_cons, hc] using ih
      | some op => simpa [lex, List.filter_cons, List.filterMap_cons, hc] using ih

/-- Witness for C6 at a concrete text: deleting the unrecognized character
of `+a.` yields the lexing of `+.`. -/
theorem C6_lexer_filter_witness :
    lex (List.cons '+' [] ++ 'a' :: ['.']) = lex (List.cons '+' [] ++ ['.']) :=
  (C6_lexer_filter []).2.2.1 ['+'] ['.'] 'a' (by decide)

/-- C5: `+` adds 1 and `-` subtracts 1 on the cell at the data pointer with
8-bit signed wraparound arithmetic (incrementing 127 yields -128 and
decrementing -128 yields 127), and no instruction other than `+`, `-` and
`,` changes the tape contents. -/
theorem C5_cell_wraparound (s : Interpreter) (h : s.data_pointer < s.data.length) :
    ((increment_dp_value s).cell = if s.cell = 127 then -128 else s.cell + 1) ∧
    ((decrement_dp_value s).cell = if s.cell = -128 then 127 else s.cell - 1) ∧
    (s.cell = 127 → (increment_dp_value s).cell = -128) ∧
    (s.cell = -128 → (decrement_dp_value s).cell = 127) ∧
    (∀ (op : Op) (s2 : Interpreter), op ≠ Op.IncrementDpValue →
      op ≠ Op.DecrementDpValue → op ≠ Op.InputDp →
      exec_op s op = StepResult.next s2 → s2.data = s.data) := by
  have hinc : (increment_dp_value s).cell = if s.cell = 127 then -128 else s.cell + 1 := by
    unfold increment_dp_value Interpreter.cell
    exact cell_set s.data s.data_pointer _ h
  have hdec : (decrement_dp_value s).cell = if s.cell = -128 then 127 else s.cell - 1 := by
    unfold decrement_dp_value Interpreter.cell
    exact cell_set s.data s.data_pointer _ h
  refine ⟨hinc, hdec, ?_, ?_, ?_⟩
  · intro hc
    rw [hinc, if_pos hc]
  · intro hc
    rw [hdec, if_pos hc]
  · intro op s2 hni hnd hnin hstep
    cases op
    case IncrementDpValue => exact absurd rfl hni
    case DecrementDpValue => exact absurd rfl hnd
    case InputDp => exact absurd rfl hnin
    case IncrementDp =>
      by_cases hdp : s.data_pointer = DATA_SIZE - 1
      · simp [exec_op, increment_dp, hdp] at hstep
      · simp [exec_op, increment_dp, hdp] at hstep
        rw [← hstep]
    case DecrementDp =>
      by_cases hdp : s.data_pointer = 0
      · simp [exec_op, decrement_dp, hdp] at hstep
      · simp [exec_op, decrement_dp, hdp] at hstep
        rw [← hstep]
    case OutputDp =>
      simp [exec_op, output_dp] at hstep
      rw [← hstep]
    case JumpForward =>
      cases hj : jump_forward s with
      | none => simp [exec_op, hj] at hstep
      | some s3 =>
        simp [exec_op, hj] at hstep
        rw [← hstep]
        exact (jump_forward_frame s s3 hj).1
    case JumpBackward =>
      cases hj : jump_backward s with
      | none => simp [exec_op, hj] at hstep
      | some s3 =>
        simp [exec_op, hj] at hstep
        rw [← hstep]
        exact (jump_backward_frame s s3 hj).1

/-- Witness for C5 on a one-cell tape holding 127: incrementing wraps the
cell to -128. -/
theorem C5_cell_wraparound_witness :
    (increment_dp_value { Interpreter.new with data := [127] }).cell = -128 :=
  (C5_cell_wraparound { Interpreter.new with data := [127] }
    (by simp [Interpreter.new])).2.2.1 rfl

/-- C4: with the tape at its configured size, moving right at the last valid
tape index or left at index 0 is a process-terminating panic (the cursor is
never clamped or wrapped); otherwise the move changes the data pointer by
exactly 1 and advances the instruction pointer by 1. -/
theorem C4_cursor_move_fatal (s : Interpreter) (h : s.data.length = DATA_SIZE) :
    (s.data_pointer = s.data.length - 1 →
      exec_op s Op.IncrementDp = StepResult.panic s) ∧
    (s.data_pointer ≠ s.data.length - 1 →
      exec_op s Op.IncrementDp =
        StepResult.next { s with data_pointer := s.data_pointer + 1,
                                 inst_pointer := s.inst_pointer + 1 }) ∧
    (s.data_pointer = 0 → exec_op s Op.DecrementDp = StepResult.panic s) ∧
    (s.data_pointer ≠ 0 →
      exec_op s Op.DecrementDp =
        StepResult.next { s with data_pointer := s.data_pointer - 1,
                                 inst_pointer := s.inst_pointer + 1 }) := by
  rw [h]
  refine ⟨?_, ?_, ?_, ?_⟩
  · intro hdp
    simp [exec_op, increment_dp, hdp]
  · intro hdp
    simp [exec_op, increment_dp, hdp]
  · intro hdp
    simp [exec_op, decrement_dp, hdp]
  · intro hdp
    simp [exec_op, decrement_dp, hdp]

/-- Witness for C4: on a fresh interpreter moved to the last cell, `>`
panics, and on a fresh interpreter `<` panics. -/
theorem C4_cursor_move_fatal_witness :
    exec_op { Interpreter.new with data_pointer := DATA_SIZE - 1 } Op.IncrementDp =
      StepResult.panic { Interpreter.new with data_pointer := DATA_SIZE - 1 } ∧
    exec_op Interpreter.new Op.DecrementDp = StepResult.panic Interpreter.new :=
  ⟨(C4_cursor_move_fatal { Interpreter.new with data_pointer := DATA_SIZE - 1 }
      (by simp [Interpreter.new])).1 (by simp [Interpreter.new]),
   (C4_cursor_move_fatal Interpreter.new (by simp [Interpreter.new])).2.2.1 rfl⟩

/-- C9: executing `.` appends exactly one line holding the signed decimal
value of the current cell to the output stream and advances the instruction
pointer; when every tape cell is a signed byte and the data pointer is in
bounds that value lies in -128..127; and the program `++.` on a fresh
interpreter outputs the single line `2`. -/
theorem C9_output_decimal (s : Interpreter) :
    (exec_op s Op.OutputDp =
      StepResult.next { s with output := s.output ++ [s.cell],
                               inst_pointer := s.inst_pointer + 1 }) ∧
    ((∀ c ∈ s.data, -128 ≤ c ∧ c ≤ 127) → s.data_pointer < s.data.length →
      -128 ≤ s.cell ∧ s.cell ≤ 127) ∧
    ((compile 10 Interpreter.new (String.toList "++.")).isSuccess = true ∧
     (compile 10 Interpreter.new (String.toList "++.")).state.output = [2]) := by
  refine ⟨rfl, ?_, rfl, rfl⟩
  intro hrange hdp
  have : s.cell = s.data[s.data_pointer] := List.getD_eq_getElem s.data 0 hdp
  rw [this]
  exact hrange _ (List.getElem_mem hdp)

/-- Witness for C9 on a fresh interpreter: the current cell value is a
signed byte. -/
theorem C9_output_decimal_witness :
    -128 ≤ Interpreter.new.cell ∧ Interpreter.new.cell ≤ 127 :=
  (C9_output_decimal Interpreter.new).2.1
    (fun c hc => by
      have hc2 : c ∈ List.replicate DATA_SIZE (0 : Int) := hc
      have h0 : c = 0 := List.eq_of_mem_replicate hc2
      rw [h0]
      exact ⟨by norm_num, by norm_num⟩)
    (by
      show (0 : Nat) < (List.replicate DATA_SIZE (0 : Int)).length
      rw [List.length_replicate]
      norm_num [DATA_SIZE])

/-- C1: executing `[` with the current cell 0 moves the instruction pointer
just past the matching pair's end, and otherwise one step forward; executing
`]` with a non-zero cell moves it just past the matching pair's start, and
otherwise one step forward; and when the needed pair is absent the run halts
with failure, leaving the state (instruction pointer included) untouched. -/
theorem C1_jump_semantics (s : Interpreter) (fuel : Nat) :
    (∀ j, s.cell = 0 →
      s.jump_positions.find? (fun p => p.start == s.inst_pointer) = some j →
      exec_op s Op.JumpForward =
        StepResult.next { s with inst_pointer := j.stop + 1 }) ∧
    (s.cell ≠ 0 →
      exec_op s Op.JumpForward =
        StepResult.next { s with inst_pointer := s.inst_pointer + 1 }) ∧
    (s.cell = 0 →
      s.jump_positions.find? (fun p => p.start == s.inst_pointer) = none →
      s.op_list.get? s.inst_pointer = some Op.JumpForward →
      run_loop (fuel + 1) s = RunResult.failure s) ∧
    (∀ j, s.cell ≠ 0 →
      s.jump_positions.find? (fun p => p.stop == s.inst_pointer) = some j →
      exec_op s Op.JumpBackward =
        StepResult.next { s with inst_pointer := j.start + 1 }) ∧
    (s.cell = 0 →
      exec_op s Op.JumpBackward =
        StepResult.next { s with inst_pointer := s.inst_pointer + 1 }) ∧
    (s.cell ≠ 0 →
      s.jump_positions.find? (fun p => p.stop == s.inst_pointer) = none →
      s.op_list.get? s.inst_pointer = some Op.JumpBackward →
      run_loop (fuel + 1) s = RunResult.failure s) := by
  refine ⟨?_, ?_, ?_, ?_, ?_, ?_⟩
  · intro j hc hfind
    simp [exec_op, jump_forward, hc, hfind]
  · intro hc
    simp [exec_op, jump_forward, hc]
  · intro hc hfind hget
    simp only [run_loop, hget]
    simp [exec_op, jump_forward, hc, hfind]
  · intro j hc hfind
    simp [exec_op, jump_backward, hc, hfind]
  · intro hc
    simp [exec_op, jump_backward, hc]
  · intro hc hfind hget
    simp only [run_loop, hget]
    simp [exec_op, jump_backward, hc, hfind]

/-- Witness for C1: a lone `[` executed with an empty jump-pair table (and a
zero cell) makes the run halt with failure, the state unchanged. -/
theorem C1_jump_semantics_witness :
    run_loop 1 { Interpreter.new with op_list := [Op.JumpForward] } =
      RunResult.failure { Interpreter.new with op_list := [Op.JumpForward] } :=
  (C1_jump_semantics { Interpreter.new with op_list := [Op.JumpForward] } 0).2.2.1
    rfl rfl rfl

/-- C2: on any op list whose brackets are balanced, validation succeeds and
records exactly one jump pair per `[` instruction, each with start before
end; the empty sequence validates with an empty pair set, and `[]` validates
as the zero-width pair (0, 1). -/
theorem C2_balanced_validates (s : Interpreter) (h : balanced s.op_list = true) :
    (validate_jumps s).1 = true ∧
    (validate_jumps s).2.jump_positions.length = s.op_list.count Op.JumpForward ∧
    (∀ p ∈ (validate_jumps s).2.jump_positions, p.start < p.stop) ∧
    validate_jumps Interpreter.new = (true, Interpreter.new) ∧
    validate_jumps { Interpreter.new with
        op_list := [Op.JumpForward, Op.JumpBackward] } =
      (true, { Interpreter.new with
          op_list := [Op.JumpForward, Op.JumpBackward],
          jump_positions := [{ start := 0, stop := 1 }] }) := by
  have hstack : ∀ e ∈ ([] : List (Op × Nat)), e.1 = Op.JumpForward := by simp
  have hok0 : (validate_jumps_go s.op_list 0 [] []).1 = true := by
    rw [validate_go_ok s.op_list 0 [] [] hstack]
    simpa [balanced] using h
  have hcnt : (validate_jumps_go s.op_list 0 [] []).2.length =
      s.op_list.count Op.JumpBackward := by
    simpa using validate_go_count s.op_list 0 [] [] hstack hok0
  have hbc : s.op_list.count Op.JumpBackward = s.op_list.count Op.JumpForward := by
    simpa using balanced_from_count s.op_list 0 (by simpa [balanced] using h)
  refine ⟨hok0, ?_, ?_, rfl, rfl⟩
  · show (validate_jumps_go s.op_list 0 [] []).2.length = _
    rw [hcnt, hbc]
  · show ∀ p ∈ (validate_jumps_go s.op_list 0 [] []).2, p.start < p.stop
    exact validate_go_lt s.op_list 0 [] [] (by simp) (by simp)

/-- Witness for C2 on the balanced op list of `[+]`: validation succeeds
and produces one pair. -/
theorem C2_balanced_validates_witness :
    (validate_jumps { Interpreter.new with
        op_list := [Op.JumpForward, Op.IncrementDpValue, Op.JumpBackward] }).1 = true ∧
    (validate_jumps { Interpreter.new with
        op_list := [Op.JumpForward, Op.IncrementDpValue, Op.JumpBackward]
        }).2.jump_positions.length =
      ([Op.JumpForward, Op.IncrementDpValue, Op.JumpBackward]).count Op.JumpForward :=
  ⟨(C2_balanced_validates _ (by decide)).1, (C2_balanced_validates _ (by decide)).2.1⟩

/-- When validation of the lexed text fails, `compile` skips the run and
returns the validation-failure outcome with the post-validation state. -/
lemma compile_of_validate_false (fuel : Nat) (s : Interpreter) (code : List Char)
    (hv : (validate_jumps (compile_lex s code)).1 = false) :
    compile fuel s code =
      CompileOutcome.validationFailed (validate_jumps (compile_lex s code)).2 := by
  show (let s1 := compile_lex s code
        let v := validate_jumps s1
        if v.1 = true then
          match run fuel v.2 with
          | RunResult.success s2 => CompileOutcome.ranSuccess s2
          | RunResult.failure s2 => CompileOutcome.ranFailure s2
          | RunResult.panic s2 => CompileOutcome.panicked s2
          | RunResult.fuelOut s2 => CompileOutcome.outOfFuel s2
        else CompileOutcome.validationFailed v.2) =
      CompileOutcome.validationFailed (validate_jumps (compile_lex s code)).2
  simp only []
  rw [if_neg]
  rw [hv]
  simp

/-- C3: on any source text whose instruction sequence has unbalanced
brackets (an excess `]` with no pending opener, or leftover `[` openers),
validation reports failure and the executor is never run: `compile` stops at
the `validationFailed` outcome instead of crashing or running. -/
theorem C3_unbalanced_rejected (fuel : Nat) (s : Interpreter) (code : List Char)
    (h : balanced (lex code) = false) :
    (validate_jumps (compile_lex s code)).1 = false ∧
    compile fuel s code =
      CompileOutcome.validationFailed (validate_jumps (compile_lex s code)).2 := by
  have hv : (validate_jumps (compile_lex s code)).1 = false := by
    show (validate_jumps_go (lex code) 0 [] []).1 = false
    rw [validate_go_ok (lex code) 0 [] [] (by simp)]
    simpa [balanced] using h
  exact ⟨hv, compile_of_validate_false fuel s code hv⟩

/-- Witness for C3 on the text `][`: compile reports failed validation and
does not run. -/
theorem C3_unbalanced_rejected_witness :
    compile 5 Interpreter.new (String.toList "][") =
      CompileOutcome.validationFailed
        (validate_jumps (compile_lex Interpreter.new (String.toList "]["))).2 :=
  (C3_unbalanced_rejected 5 Interpreter.new (String.toList "][") (by decide)).2

/-- C8: from any state with the configured tape size and an in-bounds data
cursor, every executed instruction that continues the run keeps the data
cursor strictly within the tape, and the state the run loop stops in (for
any fuel) still has an in-bounds data cursor. -/
theorem C8_cursor_invariant (s : Interpreter) (h1 : s.data.length = DATA_SIZE)
    (h2 : s.data_pointer < s.data.length) :
    (∀ (op : Op) (s2 : Interpreter), exec_op s op = StepResult.next s2 →
      s2.data_pointer < s2.data.length) ∧
    (∀ fuel, (run_loop fuel s).state.data_pointer <
      (run_loop fuel s).state.data.length) := by
  refine ⟨?_, ?_⟩
  · intro op s2 hstep
    exact (exec_op_preserves s op s2 h1 h2 hstep).2
  · intro fuel
    exact (run_loop_preserves fuel s h1 h2).2

/-- Witness for C8 on a fresh interpreter: after the (empty) run the data
cursor is within the tape. -/
theorem C8_cursor_invariant_witness :
    (run_loop 1 Interpreter.new).state.data_pointer <
      (run_loop 1 Interpreter.new).state.data.length :=
  (C8_cursor_invariant Interpreter.new
    (by simp [Interpreter.new])
    (by
      show (0 : Nat) < (List.replicate DATA_SIZE (0 : Int)).length
      rw [List.length_replicate]
      norm_num [DATA_SIZE])).2 1

/-- C7: a compile call is insensitive to the previously stored instruction
sequence and jump pairs (they are cleared and rebuilt), lexing and
validation leave the tape and data cursor untouched, `run` resets the
instruction cursor to 0 regardless of its previous value, and compiling `+`
then `.` on the same fresh interpreter outputs the single line `1`. -/
theorem C7_compile_persistence :
    (∀ (fuel : Nat) (s : Interpreter) (ops : List Op) (jps : List JumpPosition)
        (code : List Char),
      compile fuel { s with op_list := ops, jump_positions := jps } code =
        compile fuel s code) ∧
    (∀ (s : Interpreter) (code : List Char),
      (compile_lex s code).op_list = lex code ∧
      (compile_lex s code).data = s.data ∧
      (compile_lex s code).data_pointer = s.data_pointer ∧
      (validate_jumps (compile_lex s code)).2.data = s.data ∧
      (validate_jumps (compile_lex s code)).2.data_pointer = s.data_pointer) ∧
    (∀ (fuel : Nat) (s : Interpreter) (n : Nat),
      run fuel { s with inst_pointer := n } = run fuel s) ∧
    ((compile 10 (compile 10 Interpreter.new (String.toList "+")).state
        (String.toList ".")).state.output = [1]) := by
  refine ⟨?_, ?_, ?_, rfl⟩
  · intro fuel s ops jps code
    rfl
  · intro s code
    exact ⟨rfl, rfl, rfl, rfl, rfl⟩
  · intro fuel s n
    rfl

/-- C10: when validation of the lexed text fails, `compile` returns with the
tape, data cursor and instruction cursor exactly as they were, even though
the op list and the jump positions have been rebuilt. -/
theorem C10_failed_validation_frame (fuel : Nat) (s : Interpreter) (code : List Char)
    (h : (validate_jumps_go (lex code) 0 [] []).1 = false) :
    compile fuel s code =
      CompileOutcome.validationFailed
        { s with op_list := lex code,
                 jump_positions := (validate_jumps_go (lex code) 0 [] []).2 } := by
  exact compile_of_validate_false fuel s code h

/-- Witness for C10 on the text `][`: the state returned by the failed
compile differs from the initial one only in the rebuilt op list (the jump
positions stay empty here). -/
theorem C10_failed_validation_frame_witness :
    compile 5 { Interpreter.new with data_pointer := 7 } (String.toList "][") =
      CompileOutcome.validationFailed
        { Interpreter.new with
          data_pointer := 7,
          op_list := lex (String.toList "]["),
          jump_positions := (validate_jumps_go (lex (String.toList "][")) 0 [] []).2 } :=
  C10_failed_validation_frame 5 { Interpreter.new with data_pointer := 7 }
    (String.toList "][") (by decide)
